import Mathlib

/-!
Verification of the procedural world engine core (coordinate model, chunk
storage, world chunk lifecycle, terrain synthesis) against its specification.
The definitions below are a shallow embedding of the C++ sources:
Block.hpp, Chunk.hpp, Chunk.cpp, World.hpp, World.cpp.
Machine ints are modelled as Int with the C++ truncating division and
remainder (Int.tdiv, Int.tmod); the float-valued noise samplers are modelled
as abstract rational-valued functions, and float literals as the rationals
they denote.
-/

namespace BlockConfig

/-- Chunk edge length in blocks, from Block.hpp (CHUNK_SIZE = 8). -/
def CHUNK_SIZE : Int := 8

/-- World height in blocks, from Block.hpp (WORLD_HEIGHT = 32). -/
def WORLD_HEIGHT : Int := 32

end BlockConfig

/-- BlockType enumeration from Block.hpp. -/
inductive BlockType : Type where
  | AIRE
  | PASTO
  | HIERBA_SANGRE
  | ARENA
  | PIEDRA
  | TIERRA
  | DIRT_ALT
  | PASTO_FULL
  | NIEVE
  | AGUA
  | ARBOL_SECO
  | ARBOL_GRASS
  | ARBOL_SANGRE
  | TOTAL_TIPOS
deriving DecidableEq

/-- Block struct from Block.hpp: a single BlockType field, defaulting to air. -/
structure Block : Type where
  type : BlockType := BlockType.AIRE
deriving DecidableEq

/-- The shared sentinel air block used by the fail-soft accessors. -/
def airBlock : Block := ⟨BlockType.AIRE⟩

/-- Block.esSolido from Block.hpp: solid means not air. -/
def Block.esSolido (b : Block) : Bool := decide (b.type ≠ BlockType.AIRE)

/-- ChunkPos struct from Chunk.hpp: integer (x, z) chunk coordinates. -/
structure ChunkPos : Type where
  x : Int
  z : Int
deriving DecidableEq

namespace BlockUtils

/-- BlockUtils.worldToChunk from Chunk.hpp. C++ integer division truncates
toward zero, modelled by Int.tdiv. -/
def worldToChunk (x z : Int) : ChunkPos :=
  ⟨if 0 ≤ x then x.tdiv BlockConfig.CHUNK_SIZE
    else (x + 1).tdiv BlockConfig.CHUNK_SIZE - 1,
   if 0 ≤ z then z.tdiv BlockConfig.CHUNK_SIZE
    else (z + 1).tdiv BlockConfig.CHUNK_SIZE - 1⟩

/-- BlockUtils.worldToLocal from Chunk.hpp. C++ % truncates toward zero,
modelled by Int.tmod. Returns (localX, localZ). -/
def worldToLocal (x z : Int) : Int × Int :=
  ⟨(x.tmod BlockConfig.CHUNK_SIZE + BlockConfig.CHUNK_SIZE).tmod BlockConfig.CHUNK_SIZE,
   (z.tmod BlockConfig.CHUNK_SIZE + BlockConfig.CHUNK_SIZE).tmod BlockConfig.CHUNK_SIZE⟩

end BlockUtils

/-- Chunk class from Chunk.hpp and Chunk.cpp. The sparse unordered_map from
linear index to Block is modelled as a function from index to Option Block
(absent key = none); the per-column height array as a function from linear
column index to Int (default 0, matching the zero-initialised std::array). -/
structure Chunk : Type where
  position : ChunkPos
  blocks : Int → Option Block
  generated : Bool
  heightMap : Int → Int

namespace Chunk

/-- Chunk constructor from Chunk.cpp: empty sparse storage, not generated,
zeroed height map. -/
def new (position : ChunkPos) : Chunk :=
  ⟨position, fun _ => none, false, fun _ => 0⟩

/-- Chunk.getIndex from Chunk.cpp:
index = x + z * CHUNK_SIZE + y * CHUNK_SIZE * CHUNK_SIZE. -/
def getIndex (x y z : Int) : Int :=
  x + z * BlockConfig.CHUNK_SIZE + y * BlockConfig.CHUNK_SIZE * BlockConfig.CHUNK_SIZE

/-- The bounds test shared by Chunk.getBlock and Chunk.setBlock in Chunk.cpp:
x and z in [0, CHUNK_SIZE), y in [0, WORLD_HEIGHT). The C++ code tests the
negation (out of range). -/
def outOfRange (x y z : Int) : Prop :=
  x < 0 ∨ BlockConfig.CHUNK_SIZE ≤ x ∨
  z < 0 ∨ BlockConfig.CHUNK_SIZE ≤ z ∨
  y < 0 ∨ BlockConfig.WORLD_HEIGHT ≤ y

instance (x y z : Int) : Decidable (outOfRange x y z) := by
  unfold outOfRange; infer_instance

/-- The value stored by a sparse write, from Chunk.setBlock and
Chunk.setBlockUnsafe in Chunk.cpp: writing air erases the entry, any other
type inserts or overwrites a Block of that type. -/
def storedEntry (type : BlockType) : Option Block :=
  if type = BlockType.AIRE then none else some ⟨type⟩

/-- Reading one sparse map cell: a found entry is returned, an absent entry
reads as the air block (Chunk.cpp getBlock, both overloads). -/
def entryToBlock : Option Block → Block
  | some b => b
  | none => airBlock

/-- Chunk.getBlock (const overload) from Chunk.cpp: bounds-checked sparse
lookup, out-of-range and absent cells read as the sentinel air block. -/
def getBlock (c : Chunk) (x y z : Int) : Block :=
  if outOfRange x y z then airBlock
  else entryToBlock (c.blocks (getIndex x y z))

/-- Chunk.setBlockUnsafe from Chunk.hpp: unchecked sparse write. -/
def setBlockUnsafe (c : Chunk) (x y z : Int) (type : BlockType) : Chunk :=
  { c with blocks := fun i => if i = getIndex x y z then storedEntry type else c.blocks i }

/-- Chunk.setBlock from Chunk.cpp: out-of-range writes are ignored, in-range
writes erase (air) or insert/overwrite the sparse entry. -/
def setBlock (c : Chunk) (x y z : Int) (type : BlockType) : Chunk :=
  if outOfRange x y z then c
  else c.setBlockUnsafe x y z type

/-- Chunk.getMaxY from Chunk.hpp. -/
def getMaxY (c : Chunk) (x z : Int) : Int :=
  c.heightMap (x + z * BlockConfig.CHUNK_SIZE)

/-- Chunk.setMaxY from Chunk.hpp. -/
def setMaxY (c : Chunk) (x z : Int) (height : Int) : Chunk :=
  { c with heightMap := fun i => if i = x + z * BlockConfig.CHUNK_SIZE then height else c.heightMap i }

/-- Chunk.clear from Chunk.hpp: empties the sparse storage, resets the
generated flag, zeroes the height map; the position is left in place to be
overwritten on reuse. -/
def clear (c : Chunk) : Chunk :=
  { c with blocks := fun _ => none, generated := false, heightMap := fun _ => 0 }

/-- Chunk.setPosition from Chunk.hpp. -/
def setPosition (c : Chunk) (newPosition : ChunkPos) : Chunk :=
  { c with position := newPosition }

/-- Chunk.setGenerated from Chunk.hpp. -/
def setGenerated (c : Chunk) (g : Bool) : Chunk :=
  { c with generated := g }

end Chunk

/-- Truncation of a rational toward zero, the semantics of the C++
static_cast from float to int used by the generator. -/
def ratTrunc (q : ℚ) : Int := q.num.tdiv (q.den : Int)

/-- The three deterministic noise samplers configured by
World.initNoiseGenerators (terrain: Perlin FBM, caves: OpenSimplex2 3D,
biome: Perlin). The samplers are external pure C library code
(FastNoiseLite); they are modelled as abstract rational-valued functions of
the integer sample coordinates. -/
structure NoiseFns : Type where
  terrain : Int → Int → ℚ
  caves : Int → Int → Int → ℚ
  biome : Int → Int → ℚ

namespace World

/-- BIOME_CACHE_SIZE from World.hpp. -/
def BIOME_CACHE_SIZE : Int := 1024

/-- One entry of the precomputed biome table built in the World constructor
(World.cpp): bucket i holds the block type for noise value
(i / BIOME_CACHE_SIZE) * 2 - 1, classified by the threshold chain. The float
thresholds -0.3f, 0.4f, 0.7f are modelled by the decimal rationals; no bucket
value of the form i / 512 - 1 lies between a float threshold and its decimal
value, so the table contents agree with the C++ table at every index. -/
def biomeCacheAt (i : Int) : BlockType :=
  let value : ℚ := ((i : ℚ) / (BIOME_CACHE_SIZE : ℚ)) * 2 - 1
  if value < -3/10 then BlockType.NIEVE
  else if value < 0 then BlockType.HIERBA_SANGRE
  else if value < 2/5 then BlockType.PASTO
  else if value < 7/10 then BlockType.ARENA
  else BlockType.PASTO_FULL

/-- The bucket index computed by World.getBiomeFromNoise (World.cpp):
static_cast of (biomeValue + 1.0f) * 0.5f * BIOME_CACHE_SIZE, then
std::clamp into [0, BIOME_CACHE_SIZE - 1]. -/
def clampedBiomeIndex (v : ℚ) : Int :=
  let index := ratTrunc ((v + 1) * (1/2) * (BIOME_CACHE_SIZE : ℚ))
  if index < 0 then 0
  else if BIOME_CACHE_SIZE - 1 < index then BIOME_CACHE_SIZE - 1
  else index

/-- World.getBiomeFromNoise (World.cpp): clamped table lookup. -/
def getBiomeFromNoise (v : ℚ) : BlockType :=
  biomeCacheAt (clampedBiomeIndex v)

/-- World X coordinate of the first column of a chunk (World.cpp
generateTerrain, worldXStart). -/
def worldXStart (pos : ChunkPos) : Int := pos.x * BlockConfig.CHUNK_SIZE

/-- World Z coordinate of the first row of a chunk. -/
def worldZStart (pos : ChunkPos) : Int := pos.z * BlockConfig.CHUNK_SIZE

/-- Terrain height of a column (World.cpp generateTerrain): the 2D terrain
noise value mapped from [-1, 1] onto [3, 28] by
static_cast of (noise + 1) * 0.5 * 25, plus 3. -/
def heightAt (N : NoiseFns) (pos : ChunkPos) (x z : ℕ) : Int :=
  ratTrunc ((N.terrain (worldXStart pos + x) (worldZStart pos + z) + 1) * (1/2) * 25) + 3

/-- Maximum terrain height over the 64 columns of a chunk, floored at 3
(World.cpp generateTerrain, maxTerrainHeight). -/
def maxTerrainHeight (N : NoiseFns) (pos : ChunkPos) : Int :=
  ((List.range 8).flatMap (fun x => (List.range 8).map (fun z => heightAt N pos x z))).foldl max 3

/-- Block type for one cell of a column before tree decoration (World.cpp
generateTerrain, the y loop): y = 0 is stone; below height - 4 stone unless
carved to air by cave noise above the 0.4 threshold inside the band
(caveYStart, caveYEnd) = (2, maxTerrainHeight - 2); below height dirt; at
height the biome surface block; above height air. The float threshold 0.4f
is modelled by the rational 2/5. -/
def columnBlockType (N : NoiseFns) (pos : ChunkPos) (mTH h : Int)
    (biomeBlock : BlockType) (x z y : ℕ) : BlockType :=
  if (y : Int) = 0 then BlockType.PIEDRA
  else if (y : Int) < h - 4 then
    (if 2 < (y : Int) ∧ (y : Int) < mTH - 2 ∧
        2/5 < N.caves (worldXStart pos + x) (y : Int) (worldZStart pos + z)
     then BlockType.AIRE else BlockType.PIEDRA)
  else if (y : Int) < h then BlockType.TIERRA
  else if (y : Int) = h then biomeBlock
  else BlockType.AIRE

/-- Tree variant chosen from the surface biome block (World.cpp
generateTerrain, decoration pass). -/
def treeTypeFor (biomeBlock : BlockType) : BlockType :=
  if biomeBlock = BlockType.ARENA ∨ biomeBlock = BlockType.TIERRA then BlockType.ARBOL_SECO
  else if biomeBlock = BlockType.PASTO ∨ biomeBlock = BlockType.PASTO_FULL then BlockType.ARBOL_GRASS
  else if biomeBlock = BlockType.HIERBA_SANGRE then BlockType.ARBOL_SANGRE
  else BlockType.AIRE

/-- The decoration condition of World.cpp generateTerrain: the Mersenne
Twister draw for this column gives treeChance = (r % 100) / 100.0f < 0.1f
(equivalently r % 100 < 10, both sides being correctly rounded floats),
the cell above the surface is inside the world, and the biome has a tree
variant. One draw is consumed per column, in loop order x * 8 + z. -/
def treePlanted (rng : ℕ → ℕ) (r0 x z : ℕ) (h : Int) (biomeBlock : BlockType) : Prop :=
  rng (r0 + (x * 8 + z)) % 100 < 10 ∧ h + 1 < BlockConfig.WORLD_HEIGHT ∧
  treeTypeFor biomeBlock ≠ BlockType.AIRE

instance (rng : ℕ → ℕ) (r0 x z : ℕ) (h : Int) (biomeBlock : BlockType) :
    Decidable (treePlanted rng r0 x z h biomeBlock) := by
  unfold treePlanted; infer_instance

/-- The sequence of sparse writes World.cpp generateTerrain performs for one
column (x, z): one setBlockUnsafe per y in [0, WORLD_HEIGHT), then possibly
one tree block at height + 1. -/
def columnWrites (N : NoiseFns) (rng : ℕ → ℕ) (r0 : ℕ) (pos : ChunkPos)
    (mTH : Int) (x z : ℕ) : List (Int × BlockType) :=
  let h := heightAt N pos x z
  let biomeBlock := getBiomeFromNoise (N.biome (worldXStart pos + x) (worldZStart pos + z))
  ((List.range 32).map (fun (y : ℕ) =>
    ((Chunk.getIndex (x : Int) (y : Int) (z : Int)), columnBlockType N pos mTH h biomeBlock x z y))) ++
  (if treePlanted rng r0 x z h biomeBlock
   then [(Chunk.getIndex x (h + 1) z, treeTypeFor biomeBlock)] else [])

/-- Height-map value recorded for one column: the tree cell if a tree was
placed, the bare terrain height otherwise. -/
def columnMaxY (N : NoiseFns) (rng : ℕ → ℕ) (r0 : ℕ) (pos : ChunkPos) (x z : ℕ) : Int :=
  let h := heightAt N pos x z
  let biomeBlock := getBiomeFromNoise (N.biome (worldXStart pos + x) (worldZStart pos + z))
  if treePlanted rng r0 x z h biomeBlock then h + 1 else h

/-- Application of a sequence of sparse writes to the block storage, in
order; each write has the setBlockUnsafe semantics (air erases). -/
def applyWrites (m : Int → Option Block) (ws : List (Int × BlockType)) : Int → Option Block :=
  ws.foldl (fun m kv => fun i => if i = kv.1 then Chunk.storedEntry kv.2 else m i) m

/-- The 64 (x, z) columns of a chunk in generation loop order (x outer,
z inner). -/
def colPairs : List (ℕ × ℕ) :=
  (List.range 8).flatMap (fun x => (List.range 8).map (fun z => (x, z)))

/-- The final cell value produced by the generation loop for local cell
(x, y, z): the tree write at height + 1 overwrites the base fill when the
decoration fires, every other cell keeps its base fill value. -/
def expectedCellType (N : NoiseFns) (rng : ℕ → ℕ) (r0 : ℕ) (pos : ChunkPos)
    (mTH : Int) (x z y : ℕ) : BlockType :=
  if treePlanted rng r0 x z (heightAt N pos x z)
       (getBiomeFromNoise (N.biome (worldXStart pos + x) (worldZStart pos + z))) ∧
     (y : Int) = heightAt N pos x z + 1
  then treeTypeFor (getBiomeFromNoise (N.biome (worldXStart pos + x) (worldZStart pos + z)))
  else columnBlockType N pos mTH (heightAt N pos x z)
    (getBiomeFromNoise (N.biome (worldXStart pos + x) (worldZStart pos + z))) x z y

/-- World.generateTerrain (World.cpp): fills every column of the chunk and
records the per-column height map. The chunk position is read from the chunk;
r0 is the index of the next unconsumed Mersenne Twister draw. -/
def generateTerrain (N : NoiseFns) (rng : ℕ → ℕ) (r0 : ℕ) (c : Chunk) : Chunk :=
  let pos := c.position
  let mTH := maxTerrainHeight N pos
  { c with
    blocks := colPairs.foldl
      (fun m p => applyWrites m (columnWrites N rng r0 pos mTH p.1 p.2)) c.blocks,
    heightMap := colPairs.foldl
      (fun hm p => fun i =>
        if i = (p.1 : Int) + (p.2 : Int) * BlockConfig.CHUNK_SIZE
        then columnMaxY N rng r0 pos p.1 p.2 else hm i) c.heightMap }

end World

/-- Association-list lookup modelling unordered_map find on the resident
chunk map. -/
def lookupChunk (l : List (ChunkPos × Chunk)) (pos : ChunkPos) : Option Chunk :=
  (l.find? (fun e => decide (e.1 = pos))).map Prod.snd

/-- The World class of World.hpp. The mt19937 member is modelled by the
abstract draw stream rng together with the index of the next draw; the three
noise generators by the NoiseFns record; the resident chunk map by an
association list; the object pool by a list whose head is the C++ vector
back; the generation queue by a list whose head is the queue front. -/
structure World : Type where
  seed : ℕ
  noise : NoiseFns
  rng : ℕ → ℕ
  rngIndex : ℕ
  chunks : List (ChunkPos × Chunk)
  chunkPool : List Chunk
  chunkGenerationQueue : List ChunkPos

namespace World

/-- The World constructor (World.cpp): stores the seed, configures the noise
generators and the Mersenne Twister from the seed (the external library
state is abstracted by the seed-indexed families mkNoise and mkRng), builds
the biome cache (modelled by the seed-independent biomeCacheAt), and starts
with empty map, pool and queue. -/
def init (mkNoise : ℕ → NoiseFns) (mkRng : ℕ → ℕ → ℕ) (seed : ℕ) : World :=
  ⟨seed, mkNoise seed, mkRng seed, 0, [], [], []⟩

/-- World.getChunk (World.hpp): non-generating lookup. -/
def getChunk (w : World) (pos : ChunkPos) : Option Chunk :=
  lookupChunk w.chunks pos

/-- World.getBlock (World.cpp): world-to-chunk translation, fail-soft air on
a missing chunk, otherwise the chunk-local read. -/
def getBlock (w : World) (x y z : Int) : Block :=
  match lookupChunk w.chunks (BlockUtils.worldToChunk x z) with
  | none => airBlock
  | some c => c.getBlock (BlockUtils.worldToLocal x z).1 y (BlockUtils.worldToLocal x z).2

/-- Replacement of the chunk stored at a resident position, modelling an
in-place mutation through the pointer obtained from the map. -/
def updateChunkEntry (l : List (ChunkPos × Chunk)) (pos : ChunkPos) (c : Chunk) :
    List (ChunkPos × Chunk) :=
  l.map (fun e => if e.1 = pos then (pos, c) else e)

/-- World.setBlock (World.cpp): silently dropped if the chunk is missing,
otherwise a chunk-local setBlock on the resident chunk. -/
def setBlock (w : World) (x y z : Int) (type : BlockType) : World :=
  match lookupChunk w.chunks (BlockUtils.worldToChunk x z) with
  | none => w
  | some c =>
      let written := c.setBlock (BlockUtils.worldToLocal x z).1 y (BlockUtils.worldToLocal x z).2 type
      { w with chunks := updateChunkEntry w.chunks (BlockUtils.worldToChunk x z) written }

/-- World.requestChunkGeneration (World.cpp): returns unchanged if the
position is already resident in the map, otherwise pushes the position onto
the back of the generation queue. Note: the C++ code checks only m_chunks,
not the queue itself. -/
def requestChunkGeneration (w : World) (pos : ChunkPos) : World :=
  if (lookupChunk w.chunks pos).isSome then w
  else { w with chunkGenerationQueue := w.chunkGenerationQueue ++ [pos] }

/-- World.generateChunk (World.cpp), the synchronous path: no-op if already
resident; otherwise reuse a pooled chunk (clear, then set position) or
construct a fresh one, synthesize terrain, mark generated and insert. The 64
Mersenne Twister draws consumed by generateTerrain advance the stream. -/
def generateChunk (w : World) (pos : ChunkPos) : World :=
  if (lookupChunk w.chunks pos).isSome then w
  else
    match w.chunkPool with
    | [] =>
        let c := (World.generateTerrain w.noise w.rng w.rngIndex (Chunk.new pos)).setGenerated true
        { w with chunks := (pos, c) :: w.chunks, rngIndex := w.rngIndex + 64 }
    | pooled :: rest =>
        let c0 := (pooled.clear).setPosition pos
        let c := (World.generateTerrain w.noise w.rng w.rngIndex c0).setGenerated true
        { w with chunks := (pos, c) :: w.chunks, chunkPool := rest,
                 rngIndex := w.rngIndex + 64 }

/-- One iteration of World.chunkGenerationWorker (World.cpp): pop the queue
front, synthesize the chunk (reusing the pool back when available), then
publish with insert-if-absent semantics (try_emplace); when the position is
already resident the freshly generated chunk is discarded. An empty queue
leaves the state unchanged (the thread blocks on the condition variable). -/
def chunkGenerationWorkerStep (w : World) : World :=
  match w.chunkGenerationQueue with
  | [] => w
  | pos :: rest =>
      let reuse : Chunk × List Chunk :=
        match w.chunkPool with
        | [] => (Chunk.new pos, [])
        | pooled :: prest => ((pooled.clear).setPosition pos, prest)
      let c := (World.generateTerrain w.noise w.rng w.rngIndex reuse.1).setGenerated true
      if (lookupChunk w.chunks pos).isSome then
        { w with chunkGenerationQueue := rest, chunkPool := reuse.2,
                 rngIndex := w.rngIndex + 64 }
      else
        { w with chunks := (pos, c) :: w.chunks, chunkGenerationQueue := rest,
                 chunkPool := reuse.2, rngIndex := w.rngIndex + 64 }

/-- The eviction predicate of World.cpp unloadChunksFarFrom: the per-axis
offset from the center exceeds maxDistance on x or on z. -/
def farFrom (center : ChunkPos) (maxDistance : Int) (pos : ChunkPos) : Prop :=
  maxDistance < |pos.x - center.x| ∨ maxDistance < |pos.z - center.z|

instance (center : ChunkPos) (maxDistance : Int) (pos : ChunkPos) :
    Decidable (farFrom center maxDistance pos) := by
  unfold farFrom; infer_instance

/-- World.unloadChunksFarFrom (World.cpp): collect every resident chunk
whose per-axis offset exceeds maxDistance, move each to the object pool
(push_back, so the last evicted chunk becomes the pool back), erase them
from the map, and return how many were collected (the C++ int cast of the
collected size is value preserving and modelled by the natural count). -/
def unloadChunksFarFrom (w : World) (center : ChunkPos) (maxDistance : Int) :
    World × ℕ :=
  let toUnload := w.chunks.filter (fun e => decide (farFrom center maxDistance e.1))
  let kept := w.chunks.filter (fun e => ! decide (farFrom center maxDistance e.1))
  ({ w with chunks := kept,
            chunkPool := (toUnload.map Prod.snd).reverse ++ w.chunkPool },
   toUnload.length)

/-- World.getChunksAround (World.cpp): enumerate the (2 radius + 1) squared
positions around the center in loop order, partition into resident and
missing under the lock, return the resident chunks that are generated, and
request asynchronous generation of every missing position. -/
def getChunksAround (w : World) (center : ChunkPos) (radius : Int) :
    List Chunk × World :=
  let n := (2 * radius + 1).toNat
  let positions := (List.range n).flatMap (fun (i : ℕ) =>
    (List.range n).map (fun (j : ℕ) =>
      ChunkPos.mk (center.x - radius + (i : Int)) (center.z - radius + (j : Int))))
  let chunksToCheck := positions.filterMap (fun p => lookupChunk w.chunks p)
  let missing := positions.filter (fun p => (lookupChunk w.chunks p).isNone)
  (chunksToCheck.filter (fun c => c.generated),
   missing.foldl (fun st p => st.requestChunkGeneration p) w)

end World

/-- A concrete noise model used to instantiate witnesses: constant samplers
whose terrain value lies in the nominal noise range [-1, 1]. -/
def testNoise : NoiseFns := ⟨fun _ _ => 1/2, fun _ _ _ => 0, fun _ _ => 0⟩

/-- A concrete seed-indexed noise family for witnesses. -/
def testMkNoise : ℕ → NoiseFns := fun _ => testNoise

/-- A concrete seed-indexed random draw stream for witnesses. -/
def testMkRng : ℕ → ℕ → ℕ := fun _ _ => 0

/-- Claim C5: for every in-range local coordinate and non-air type T, setBlock
followed by getBlock returns a block of type T; setBlock T then setBlock AIR
erases the sparse entry, getBlock then reads air, and if the cell was never
written the whole sparse storage is restored exactly (no leaked entry). -/
theorem setBlock_getBlock_roundtrip (c : Chunk) (x y z : Int) (T : BlockType)
    (hin : ¬ Chunk.outOfRange x y z) (hT : T ≠ BlockType.AIRE) :
    (c.setBlock x y z T).getBlock x y z = ⟨T⟩ ∧
    ((c.setBlock x y z T).setBlock x y z BlockType.AIRE).blocks (Chunk.getIndex x y z) = none ∧
    ((c.setBlock x y z T).setBlock x y z BlockType.AIRE).getBlock x y z = airBlock ∧
    (c.blocks (Chunk.getIndex x y z) = none →
      ((c.setBlock x y z T).setBlock x y z BlockType.AIRE).blocks = c.blocks) := by
  unfold Chunk.setBlock Chunk.setBlockUnsafe Chunk.getBlock Chunk.storedEntry
  rw [if_neg hin, if_neg hin, if_neg hin, if_neg hin]
  refine ⟨?_, ?_, ?_, ?_⟩
  · simp [hT, Chunk.entryToBlock]
  · simp
  · simp [Chunk.entryToBlock]
  · intro hnone
    funext i
    by_cases hi : i = Chunk.getIndex x y z
    · simp [hi, hnone]
    · simp [hi]

/-- Witness for claim C5 at a concrete input: the empty chunk at the origin,
cell (1, 2, 3), block type PIEDRA. -/
theorem setBlock_getBlock_roundtrip_witness :
    (¬ Chunk.outOfRange 1 2 3) ∧ BlockType.PIEDRA ≠ BlockType.AIRE ∧
    (((Chunk.new ⟨0, 0⟩).setBlock 1 2 3 BlockType.PIEDRA).getBlock 1 2 3 = ⟨BlockType.PIEDRA⟩ ∧
     (((Chunk.new ⟨0, 0⟩).setBlock 1 2 3 BlockType.PIEDRA).setBlock 1 2 3 BlockType.AIRE).blocks
        (Chunk.getIndex 1 2 3) = none ∧
     (((Chunk.new ⟨0, 0⟩).setBlock 1 2 3 BlockType.PIEDRA).setBlock 1 2 3 BlockType.AIRE).getBlock
        1 2 3 = airBlock ∧
     ((Chunk.new ⟨0, 0⟩).blocks (Chunk.getIndex 1 2 3) = none →
       (((Chunk.new ⟨0, 0⟩).setBlock 1 2 3 BlockType.PIEDRA).setBlock 1 2 3
          BlockType.AIRE).blocks = (Chunk.new ⟨0, 0⟩).blocks)) :=
  ⟨by decide, by decide,
   setBlock_getBlock_roundtrip (Chunk.new ⟨0, 0⟩) 1 2 3 BlockType.PIEDRA (by decide) (by decide)⟩

/-- Claim C6: for every out-of-range local coordinate, Chunk.getBlock returns
the sentinel air block and Chunk.setBlock is a no-op leaving the whole chunk
(sparse storage, height map, generated flag, position) unchanged. -/
theorem outOfRange_failSoft (c : Chunk) (x y z : Int) (T : BlockType)
    (hout : Chunk.outOfRange x y z) :
    c.getBlock x y z = airBlock ∧ c.setBlock x y z T = c := by
  unfold Chunk.getBlock Chunk.setBlock
  rw [if_pos hout, if_pos hout]
  exact ⟨rfl, rfl⟩

/-- Witness for claim C6 at a concrete input: y = 32 is out of range, getBlock
reads air and setBlock leaves the chunk unchanged. -/
theorem outOfRange_failSoft_witness :
    Chunk.outOfRange 0 32 0 ∧
    ((Chunk.new ⟨0, 0⟩).getBlock 0 32 0 = airBlock ∧
     (Chunk.new ⟨0, 0⟩).setBlock 0 32 0 BlockType.PIEDRA = Chunk.new ⟨0, 0⟩) :=
  ⟨by decide, outOfRange_failSoft (Chunk.new ⟨0, 0⟩) 0 32 0 BlockType.PIEDRA (by decide)⟩

/-- Single-axis consistency of the conversion formulas of Chunk.hpp. -/
theorem coordAxis_spec (v : Int) :
    0 ≤ (v.tmod 8 + 8).tmod 8 ∧ (v.tmod 8 + 8).tmod 8 < 8 ∧
    (if 0 ≤ v then v.tdiv 8 else (v + 1).tdiv 8 - 1) * 8 + (v.tmod 8 + 8).tmod 8 = v := by
  have h8 : (0 : Int) ≤ 8 := by norm_num
  rcases le_or_lt 0 v with hv | hv
  · have hd : v.tdiv 8 = v / 8 := Int.tdiv_eq_ediv hv h8
    have hm : v.tmod 8 = v % 8 := Int.tmod_eq_emod hv h8
    have hm2 : (v.tmod 8 + 8).tmod 8 = (v % 8 + 8) % 8 := by
      rw [hm]
      exact Int.tmod_eq_emod (by omega) h8
    rw [if_pos hv, hd, hm2]
    omega
  · have hvt : v.tdiv 8 = -((-v) / 8) := by
      have := Int.neg_tdiv v 8
      have hnn : (0 : Int) ≤ -v := by omega
      rw [Int.tdiv_eq_ediv hnn h8] at this
      omega
    have hvt1 : (v + 1).tdiv 8 = -((-(v + 1)) / 8) := by
      have := Int.neg_tdiv (v + 1) 8
      have hnn : (0 : Int) ≤ -(v + 1) := by omega
      rw [Int.tdiv_eq_ediv hnn h8] at this
      omega
    have hmdef : v.tmod 8 = v - 8 * v.tdiv 8 := Int.tmod_def v 8
    have hmrange : -8 < v.tmod 8 ∧ v.tmod 8 ≤ 0 := by
      rw [hmdef, hvt]
      omega
    have hm2 : (v.tmod 8 + 8).tmod 8 = (v.tmod 8 + 8) % 8 :=
      Int.tmod_eq_emod (by omega) h8
    rw [if_neg (by omega), hvt1, hm2, hmdef, hvt]
    omega

/-- Claim C1: for every pair of integers (x, z), worldToChunk and worldToLocal
are consistent: each local coordinate lies in [0, CHUNK_SIZE), and on each
axis chunkCoord * CHUNK_SIZE + localCoord reconstructs the world coordinate. -/
theorem worldToChunk_worldToLocal_consistent (x z : Int) :
    0 ≤ (BlockUtils.worldToLocal x z).1 ∧
    (BlockUtils.worldToLocal x z).1 < BlockConfig.CHUNK_SIZE ∧
    0 ≤ (BlockUtils.worldToLocal x z).2 ∧
    (BlockUtils.worldToLocal x z).2 < BlockConfig.CHUNK_SIZE ∧
    (BlockUtils.worldToChunk x z).x * BlockConfig.CHUNK_SIZE +
      (BlockUtils.worldToLocal x z).1 = x ∧
    (BlockUtils.worldToChunk x z).z * BlockConfig.CHUNK_SIZE +
      (BlockUtils.worldToLocal x z).2 = z := by
  obtain ⟨hx0, hx1, hx2⟩ := coordAxis_spec x
  obtain ⟨hz0, hz1, hz2⟩ := coordAxis_spec z
  exact ⟨hx0, hx1, hz0, hz1, hx2, hz2⟩

/-- Claim C10: for every input value v, the computed bucket index is clamped
into [0, BIOME_CACHE_SIZE - 1] before the table lookup, and
getBiomeFromNoise returns one of exactly five surface block types, never
air. -/
theorem getBiomeFromNoise_safe (v : ℚ) :
    0 ≤ World.clampedBiomeIndex v ∧
    World.clampedBiomeIndex v ≤ World.BIOME_CACHE_SIZE - 1 ∧
    (World.getBiomeFromNoise v = BlockType.NIEVE ∨
     World.getBiomeFromNoise v = BlockType.HIERBA_SANGRE ∨
     World.getBiomeFromNoise v = BlockType.PASTO ∨
     World.getBiomeFromNoise v = BlockType.ARENA ∨
     World.getBiomeFromNoise v = BlockType.PASTO_FULL) ∧
    World.getBiomeFromNoise v ≠ BlockType.AIRE := by
  have hmem : World.getBiomeFromNoise v = BlockType.NIEVE ∨
      World.getBiomeFromNoise v = BlockType.HIERBA_SANGRE ∨
      World.getBiomeFromNoise v = BlockType.PASTO ∨
      World.getBiomeFromNoise v = BlockType.ARENA ∨
      World.getBiomeFromNoise v = BlockType.PASTO_FULL := by
    simp only [World.getBiomeFromNoise, World.biomeCacheAt]
    split_ifs <;> simp
  refine ⟨?_, ?_, hmem, ?_⟩
  · simp only [World.clampedBiomeIndex, World.BIOME_CACHE_SIZE]
    split_ifs <;> omega
  · simp only [World.clampedBiomeIndex, World.BIOME_CACHE_SIZE]
    split_ifs <;> omega
  · rcases hmem with h | h | h | h | h <;> rw [h] <;> simp

/-- Claim C7: when the containing chunk is not resident, World.getBlock
returns air and World.setBlock leaves the entire world state unchanged;
neither call creates, enqueues, or materializes a chunk. -/
theorem missingChunk_failSoft (w : World) (x y z : Int) (T : BlockType)
    (habs : lookupChunk w.chunks (BlockUtils.worldToChunk x z) = none) :
    w.getBlock x y z = airBlock ∧ w.setBlock x y z T = w := by
  unfold World.getBlock World.setBlock
  rw [habs]
  exact ⟨rfl, rfl⟩

/-- Witness for claim C7: a fresh world has no resident chunk at the chunk
containing world coordinate (3, 4, 5), the read returns air and the write is
dropped. -/
theorem missingChunk_failSoft_witness :
    lookupChunk (World.init testMkNoise testMkRng 7).chunks (BlockUtils.worldToChunk 3 5) = none ∧
    ((World.init testMkNoise testMkRng 7).getBlock 3 4 5 = airBlock ∧
     (World.init testMkNoise testMkRng 7).setBlock 3 4 5 BlockType.PIEDRA =
       World.init testMkNoise testMkRng 7) :=
  ⟨rfl, missingChunk_failSoft (World.init testMkNoise testMkRng 7) 3 4 5 BlockType.PIEDRA rfl⟩

/-- A lookup matched only by kept entries is unaffected by filtering: the
elements selected by q all satisfy the filter predicate. -/
theorem find?_filter_of_imp {α : Type} (l : List α) (q p : α → Bool)
    (h : ∀ a, q a = true → p a = true) : (l.filter p).find? q = l.find? q := by
  induction l with
  | nil => rfl
  | cons a t ih =>
    rcases hq : q a with _ | _
    · rcases hp : p a with _ | _
      · simpa [List.filter_cons, hp, List.find?_cons, hq] using ih
      · simpa [List.filter_cons, hp, List.find?_cons, hq] using ih
    · have hp := h a hq
      simp [List.filter_cons, hp, List.find?_cons, hq]

/-- Splitting a list by a predicate and its pointwise negation preserves the
total length. -/
theorem length_filter_split {α : Type} (l : List α) (p q : α → Bool)
    (hq : ∀ a, q a = ! p a) :
    (l.filter p).length + (l.filter q).length = l.length := by
  induction l with
  | nil => rfl
  | cons a t ih =>
    rcases hp : p a with _ | _ <;> simp [List.filter_cons, hp, hq] <;> omega

/-- Claim C8: unloadChunksFarFrom removes exactly the chunks whose per-axis
offset from the center strictly exceeds maxDistance (offset exactly
maxDistance is kept), leaves every other resident chunk unchanged, moves
every removed chunk into the reuse pool, and returns a count equal to the
number of chunks removed. -/
theorem unloadChunksFarFrom_spec (w : World) (center : ChunkPos) (maxDistance : Int) :
    (∀ pos, lookupChunk (w.unloadChunksFarFrom center maxDistance).1.chunks pos =
       if World.farFrom center maxDistance pos then none else lookupChunk w.chunks pos) ∧
    (∀ e ∈ w.chunks, World.farFrom center maxDistance e.1 →
       e.2 ∈ (w.unloadChunksFarFrom center maxDistance).1.chunkPool) ∧
    (w.unloadChunksFarFrom center maxDistance).2 =
      (w.chunks.countP (fun e => decide (World.farFrom center maxDistance e.1))) ∧
    (w.unloadChunksFarFrom center maxDistance).1.chunks.length +
      (w.unloadChunksFarFrom center maxDistance).2 = w.chunks.length ∧
    (w.unloadChunksFarFrom center maxDistance).1.chunkPool.length =
      w.chunkPool.length + (w.unloadChunksFarFrom center maxDistance).2 := by
  unfold World.unloadChunksFarFrom
  refine ⟨?_, ?_, ?_, ?_, ?_⟩
  · intro pos
    by_cases hfar : World.farFrom center maxDistance pos
    · rw [if_pos hfar]
      unfold lookupChunk
      have hnone : (w.chunks.filter
          (fun e => ! decide (World.farFrom center maxDistance e.1))).find?
          (fun e => decide (e.1 = pos)) = none := by
        rw [List.find?_eq_none]
        intro e he
        have hkeep := List.of_mem_filter he
        simp only [Bool.not_eq_true', decide_eq_false_iff_not] at hkeep
        simp only [decide_eq_true_eq]
        intro heq
        exact hkeep (heq ▸ hfar)
      rw [hnone]
      rfl
    · rw [if_neg hfar]
      unfold lookupChunk
      rw [find?_filter_of_imp]
      intro e he
      simp only [decide_eq_true_eq] at he
      simp only [Bool.not_eq_true', decide_eq_false_iff_not]
      rw [he]
      exact hfar
  · intro e he hfar
    have : e ∈ w.chunks.filter (fun e => decide (World.farFrom center maxDistance e.1)) := by
      rw [List.mem_filter]
      exact ⟨he, by simpa using hfar⟩
    simp only [List.mem_append, List.mem_reverse, List.mem_map]
    exact Or.inl ⟨e, this, rfl⟩
  · exact (List.countP_eq_length_filter _ _).symm
  · have h := length_filter_split w.chunks
      (fun e => decide (World.farFrom center maxDistance e.1))
      (fun e => ! decide (World.farFrom center maxDistance e.1)) (fun a => rfl)
    simp only []
    omega
  · simp only [World.unloadChunksFarFrom, List.length_append, List.length_reverse,
      List.length_map]
    omega

/-- Claim C2 counterevidence: on a fresh world, two requestChunkGeneration
calls for the same absent position enqueue it twice (the C++ code checks
only the resident map, not the queue), so the second call is not a no-op
and the queue holds a duplicate; after one background worker step publishes
the chunk, the position is simultaneously resident in the map and still
present in the queue, violating the at-most-one-of invariant. -/
theorem requestChunkGeneration_duplicate_bug :
    ((World.init testMkNoise testMkRng 42).requestChunkGeneration ⟨0, 0⟩).requestChunkGeneration
        ⟨0, 0⟩ ≠ (World.init testMkNoise testMkRng 42).requestChunkGeneration ⟨0, 0⟩ ∧
    (((World.init testMkNoise testMkRng 42).requestChunkGeneration ⟨0, 0⟩).requestChunkGeneration
        ⟨0, 0⟩).chunkGenerationQueue = [⟨0, 0⟩, ⟨0, 0⟩] ∧
    (lookupChunk ((((World.init testMkNoise testMkRng 42).requestChunkGeneration
        ⟨0, 0⟩).requestChunkGeneration ⟨0, 0⟩).chunkGenerationWorkerStep).chunks
        ⟨0, 0⟩).isSome = true ∧
    ((((World.init testMkNoise testMkRng 42).requestChunkGeneration
        ⟨0, 0⟩).requestChunkGeneration ⟨0, 0⟩).chunkGenerationWorkerStep).chunkGenerationQueue =
      [⟨0, 0⟩] := by
  refine ⟨?_, rfl, rfl, rfl⟩
  intro h
  exact (by decide : ¬ (([⟨0, 0⟩, ⟨0, 0⟩] : List ChunkPos) = [⟨0, 0⟩]))
    (congrArg World.chunkGenerationQueue h)

/-- Claim C4: two World instances constructed with the same seed, each
synchronously generating the same ChunkPos, produce identical Block contents
at every cell of that chunk. In the embedding the noise samplers and the
random stream are pure functions of the seed (the samplers are stateless
library code configured from seed, seed + 1, seed + 2), so the whole
generation pipeline is a function of the seed and the position. -/
theorem generateChunk_deterministic (mkNoise : ℕ → NoiseFns) (mkRng : ℕ → ℕ → ℕ)
    (s1 s2 : ℕ) (hs : s1 = s2) (p : ChunkPos) (x y z : Int) :
    Option.map (fun c => c.getBlock x y z)
      (lookupChunk ((World.init mkNoise mkRng s1).generateChunk p).chunks p) =
    Option.map (fun c => c.getBlock x y z)
      (lookupChunk ((World.init mkNoise mkRng s2).generateChunk p).chunks p) := by
  subst hs
  rfl

/-- Witness for claim C4 at seed 42 and chunk (0, 0), cell (0, 0, 0). -/
theorem generateChunk_deterministic_witness :
    (42 : ℕ) = 42 ∧
    Option.map (fun c => c.getBlock 0 0 0)
      (lookupChunk ((World.init testMkNoise testMkRng 42).generateChunk ⟨0, 0⟩).chunks ⟨0, 0⟩) =
    Option.map (fun c => c.getBlock 0 0 0)
      (lookupChunk ((World.init testMkNoise testMkRng 42).generateChunk ⟨0, 0⟩).chunks ⟨0, 0⟩) :=
  ⟨rfl, generateChunk_deterministic testMkNoise testMkRng 42 42 rfl ⟨0, 0⟩ 0 0 0⟩

/-- Claim C9: every chunk returned by getChunksAround is generated and its
position lies inside the square of side 2 radius + 1 centered on the center
position, and the number of returned chunks is at most the area of that
square; ungenerated chunks are never included. The hypothesis states the map
well-formedness maintained by every insertion: a resident chunk records the
position it is keyed under. -/
theorem getChunksAround_spec (w : World) (center : ChunkPos) (radius : Int)
    (hwf : ∀ e ∈ w.chunks, e.2.position = e.1) :
    (∀ c ∈ (w.getChunksAround center radius).1,
       c.generated = true ∧
       center.x - radius ≤ c.position.x ∧ c.position.x ≤ center.x + radius ∧
       center.z - radius ≤ c.position.z ∧ c.position.z ≤ center.z + radius) ∧
    (w.getChunksAround center radius).1.length ≤
      (2 * radius + 1).toNat * (2 * radius + 1).toNat := by
  constructor
  · intro c hc
    simp only [World.getChunksAround] at hc
    have hgen : c.generated = true := List.of_mem_filter hc
    have hmem := List.mem_of_mem_filter hc
    rw [List.mem_filterMap] at hmem
    obtain ⟨p, hp, hlook⟩ := hmem
    have hfind : ∃ e, w.chunks.find? (fun e => decide (e.1 = p)) = some e ∧ e.2 = c := by
      unfold lookupChunk at hlook
      cases hfe : w.chunks.find? (fun e => decide (e.1 = p)) with
      | none => rw [hfe] at hlook; simp at hlook
      | some e =>
          rw [hfe] at hlook
          simp only [Option.map_some'] at hlook
          exact ⟨e, rfl, by simpa using hlook⟩
    obtain ⟨e, hfe, hec⟩ := hfind
    have hein := List.mem_of_find?_eq_some hfe
    have hekey : e.1 = p := by simpa using List.find?_some hfe
    have hpos : c.position = p := by rw [← hec, hwf e hein, hekey]
    simp only [List.mem_flatMap, List.mem_map, List.mem_range] at hp
    obtain ⟨i, hi, j, hj, rfl⟩ := hp
    rw [hpos]
    refine ⟨hgen, ?_, ?_, ?_, ?_⟩ <;> dsimp only <;> omega
  · simp only [World.getChunksAround]
    have hlen : ((List.range ((2 * radius + 1).toNat)).flatMap (fun (i : ℕ) =>
        (List.range ((2 * radius + 1).toNat)).map (fun (j : ℕ) =>
          ChunkPos.mk (center.x - radius + (i : Int)) (center.z - radius + (j : Int))))).length =
        (2 * radius + 1).toNat * (2 * radius + 1).toNat := by
      simp only [List.length_flatMap, Function.comp_def, List.length_map, List.length_range,
        List.map_const', List.sum_replicate, smul_eq_mul]
    exact le_trans (List.length_filter_le _ _)
      (le_trans (List.length_filterMap_le _ _) (le_of_eq hlen))

/-- Witness for claim C9: a fresh world (vacuously well formed), center
(0, 0), radius 1; the returned list has at most 9 chunks, each generated and
inside the 3 by 3 square. -/
theorem getChunksAround_spec_witness :
    (∀ e ∈ (World.init testMkNoise testMkRng 3).chunks, e.2.position = e.1) ∧
    ((∀ c ∈ ((World.init testMkNoise testMkRng 3).getChunksAround ⟨0, 0⟩ 1).1,
       c.generated = true ∧
       (0 : Int) - 1 ≤ c.position.x ∧ c.position.x ≤ (0 : Int) + 1 ∧
       (0 : Int) - 1 ≤ c.position.z ∧ c.position.z ≤ (0 : Int) + 1) ∧
     ((World.init testMkNoise testMkRng 3).getChunksAround ⟨0, 0⟩ 1).1.length ≤
       (2 * (1 : Int) + 1).toNat * (2 * (1 : Int) + 1).toNat) :=
  ⟨fun e he => absurd he (List.not_mem_nil e),
   getChunksAround_spec (World.init testMkNoise testMkRng 3) ⟨0, 0⟩ 1
     (fun e he => absurd he (List.not_mem_nil e))⟩

/-- Reading back a stored sparse entry yields a block of the written type
(an erased air entry reads as the air block). -/
theorem entryToBlock_storedEntry (t : BlockType) :
    Chunk.entryToBlock (Chunk.storedEntry t) = ⟨t⟩ := by
  unfold Chunk.storedEntry
  by_cases h : t = BlockType.AIRE
  · subst h
    rw [if_pos rfl]
    rfl
  · rw [if_neg h]
    rfl

/-- A write sequence leaves untouched keys unchanged. -/
theorem applyWrites_not_mem (m : Int → Option Block) (ws : List (Int × BlockType)) (k : Int)
    (h : ∀ kv ∈ ws, kv.1 ≠ k) : World.applyWrites m ws k = m k := by
  induction ws generalizing m with
  | nil => rfl
  | cons kv t ih =>
    have hk : kv.1 ≠ k := h kv (List.mem_cons_self kv t)
    have hstep : World.applyWrites m (kv :: t) =
        World.applyWrites (fun i => if i = kv.1 then Chunk.storedEntry kv.2 else m i) t := rfl
    rw [hstep, ih _ (fun e he => h e (List.mem_cons_of_mem kv he))]
    exact if_neg (Ne.symm hk)

/-- Writes split across an append compose. -/
theorem applyWrites_append (m : Int → Option Block) (l1 l2 : List (Int × BlockType)) :
    World.applyWrites m (l1 ++ l2) = World.applyWrites (World.applyWrites m l1) l2 :=
  List.foldl_append _ _ _ _

/-- Writing a range of cells with pairwise distinct keys stores, at the key
of index y, exactly the value of index y. -/
theorem applyWrites_map_range (f : ℕ → Int × BlockType) (n y : ℕ) (hy : y < n)
    (inj : ∀ i, i < n → (f i).1 = (f y).1 → i = y) (m : Int → Option Block) :
    World.applyWrites m ((List.range n).map f) ((f y).1) = Chunk.storedEntry ((f y).2) := by
  induction n generalizing m with
  | zero => omega
  | succ n ih =>
    rw [List.range_succ, List.map_append, applyWrites_append]
    rcases Nat.lt_or_ge y n with hlt | hge
    · have hne : (f n).1 ≠ (f y).1 := fun he => by
        have := inj n (by omega) he
        omega
      have hsingle : ∀ m' : Int → Option Block,
          World.applyWrites m' ([f n] : List (Int × BlockType)) ((f y).1) = m' ((f y).1) := by
        intro m'
        show (if (f y).1 = (f n).1 then Chunk.storedEntry (f n).2 else m' ((f y).1)) = m' ((f y).1)
        exact if_neg (fun hh => hne hh.symm)
      rw [List.map_cons, List.map_nil] at *
      rw [hsingle]
      exact ih hlt (fun i hi he => inj i (by omega) he) m
    · have hyn : y = n := by omega
      subst hyn
      show (if (f y).1 = (f y).1 then Chunk.storedEntry (f y).2 else _) = _
      rw [if_pos rfl]

/-- The writes of one generation column hit only keys of that column: they
never alias a cell of a different column. -/
theorem columnWrites_keys_ne (N : NoiseFns) (rng : ℕ → ℕ) (r0 : ℕ) (pos : ChunkPos)
    (mTH : Int) (x z x' z' y : ℕ)
    (hx : x < 8) (hz : z < 8) (hx' : x' < 8) (hz' : z' < 8)
    (hne : ¬(x' = x ∧ z' = z)) :
    ∀ kv ∈ World.columnWrites N rng r0 pos mTH x' z', kv.1 ≠ Chunk.getIndex x y z := by
  intro kv hkv
  simp only [World.columnWrites, List.mem_append, List.mem_map, List.mem_range] at hkv
  rcases hkv with ⟨i, hi, rfl⟩ | htree
  · simp only [Chunk.getIndex, BlockConfig.CHUNK_SIZE]
    intro he
    omega
  · by_cases ht : World.treePlanted rng r0 x' z' (World.heightAt N pos x' z')
        (World.getBiomeFromNoise (N.biome (World.worldXStart pos + x') (World.worldZStart pos + z')))
    · rw [if_pos ht] at htree
      simp only [List.mem_singleton] at htree
      subst htree
      simp only [Chunk.getIndex, BlockConfig.CHUNK_SIZE]
      intro he
      omega
    · rw [if_neg ht] at htree
      simp at htree

/-- Applying a column write sequence reads back, at a cell of that column,
exactly the expected cell value (base fill, possibly overwritten by the tree
decoration). -/
theorem applyWrites_columnWrites (N : NoiseFns) (rng : ℕ → ℕ) (r0 : ℕ) (pos : ChunkPos)
    (mTH : Int) (x z y : ℕ) (hy : y < 32) (m : Int → Option Block) :
    World.applyWrites m (World.columnWrites N rng r0 pos mTH x z) (Chunk.getIndex x y z) =
      Chunk.storedEntry (World.expectedCellType N rng r0 pos mTH x z y) := by
  simp only [World.columnWrites]
  rw [applyWrites_append]
  have hbase : ∀ m' : Int → Option Block,
      World.applyWrites m' ((List.range 32).map (fun (i : ℕ) =>
        (Chunk.getIndex (x : Int) (i : Int) (z : Int),
         World.columnBlockType N pos mTH (World.heightAt N pos x z)
           (World.getBiomeFromNoise (N.biome (World.worldXStart pos + x)
             (World.worldZStart pos + z))) x z i)))
        (Chunk.getIndex x y z) =
      Chunk.storedEntry (World.columnBlockType N pos mTH (World.heightAt N pos x z)
        (World.getBiomeFromNoise (N.biome (World.worldXStart pos + x)
          (World.worldZStart pos + z))) x z y) := by
    intro m'
    exact applyWrites_map_range _ 32 y hy
      (fun i hi he => by
        simp only [Chunk.getIndex, BlockConfig.CHUNK_SIZE] at he
        omega) m'
  by_cases ht : World.treePlanted rng r0 x z (World.heightAt N pos x z)
      (World.getBiomeFromNoise (N.biome (World.worldXStart pos + x) (World.worldZStart pos + z)))
  · rw [if_pos ht]
    by_cases hyh : (y : Int) = World.heightAt N pos x z + 1
    · have hk : Chunk.getIndex x y z =
          Chunk.getIndex x (World.heightAt N pos x z + 1) z := by
        simp only [Chunk.getIndex, BlockConfig.CHUNK_SIZE]
        omega
      show (if Chunk.getIndex (x : Int) (y : Int) (z : Int) =
          Chunk.getIndex (x : Int) (World.heightAt N pos x z + 1) (z : Int)
        then Chunk.storedEntry (World.treeTypeFor (World.getBiomeFromNoise
          (N.biome (World.worldXStart pos + x) (World.worldZStart pos + z))))
        else World.applyWrites m _ (Chunk.getIndex (x : Int) (y : Int) (z : Int))) = _
      rw [if_pos hk]
      unfold World.expectedCellType
      rw [if_pos ⟨ht, hyh⟩]
    · have hk : ¬ (Chunk.getIndex (x : Int) (y : Int) (z : Int) =
          Chunk.getIndex (x : Int) (World.heightAt N pos x z + 1) (z : Int)) := by
        simp only [Chunk.getIndex, BlockConfig.CHUNK_SIZE]
        omega
      show (if Chunk.getIndex (x : Int) (y : Int) (z : Int) =
          Chunk.getIndex (x : Int) (World.heightAt N pos x z + 1) (z : Int)
        then Chunk.storedEntry (World.treeTypeFor (World.getBiomeFromNoise
          (N.biome (World.worldXStart pos + x) (World.worldZStart pos + z))))
        else World.applyWrites m _ (Chunk.getIndex (x : Int) (y : Int) (z : Int))) = _
      rw [if_neg hk, hbase]
      unfold World.expectedCellType
      rw [if_neg (fun hc => hyh hc.2)]
  · rw [if_neg ht]
    show World.applyWrites (World.applyWrites m _) [] (Chunk.getIndex (x : Int) (y : Int) (z : Int)) = _
    rw [show ∀ m' : Int → Option Block, World.applyWrites m' [] = m' from fun _ => rfl]
    rw [hbase]
    unfold World.expectedCellType
    rw [if_neg (fun hc => ht hc.1)]

/-- Folding column writes over a list of columns that never touch a key
leaves that key unchanged. -/
theorem foldl_applyWrites_preserve (N : NoiseFns) (rng : ℕ → ℕ) (r0 : ℕ) (pos : ChunkPos)
    (mTH : Int) (cols : List (ℕ × ℕ)) (k : Int) (m : Int → Option Block)
    (h : ∀ p ∈ cols, ∀ kv ∈ World.columnWrites N rng r0 pos mTH p.1 p.2, kv.1 ≠ k) :
    (cols.foldl (fun m p => World.applyWrites m (World.columnWrites N rng r0 pos mTH p.1 p.2)) m) k
      = m k := by
  induction cols generalizing m with
  | nil => rfl
  | cons p t ih =>
    rw [List.foldl_cons, ih _ (fun q hq => h q (List.mem_cons_of_mem p hq))]
    exact applyWrites_not_mem m _ k (h p (List.mem_cons_self p t))

/-- Folding column writes over a duplicate-free list of in-range columns
containing (x, z) stores, at cell (x, y, z), exactly the expected value. -/
theorem foldl_applyWrites_set (N : NoiseFns) (rng : ℕ → ℕ) (r0 : ℕ) (pos : ChunkPos)
    (mTH : Int) (cols : List (ℕ × ℕ)) (x z y : ℕ)
    (hy : y < 32) (hx : x < 8) (hz : z < 8)
    (hbound : ∀ p ∈ cols, p.1 < 8 ∧ p.2 < 8)
    (hnd : cols.Nodup) (hmem : (x, z) ∈ cols) (m : Int → Option Block) :
    (cols.foldl (fun m p => World.applyWrites m (World.columnWrites N rng r0 pos mTH p.1 p.2)) m)
      (Chunk.getIndex x y z) =
      Chunk.storedEntry (World.expectedCellType N rng r0 pos mTH x z y) := by
  induction cols generalizing m with
  | nil => cases hmem
  | cons p t ih =>
    rw [List.foldl_cons]
    have hpt : p ∉ t := (List.nodup_cons.mp hnd).1
    have hndt : t.Nodup := (List.nodup_cons.mp hnd).2
    by_cases hp : p = (x, z)
    · subst hp
      rw [foldl_applyWrites_preserve N rng r0 pos mTH t _ _ ?hpre]
      · exact applyWrites_columnWrites N rng r0 pos mTH x z y hy m
      case hpre =>
        intro q hq kv hkv
        have hqb := hbound q (List.mem_cons_of_mem _ hq)
        refine columnWrites_keys_ne N rng r0 pos mTH x z q.1 q.2 y hx hz hqb.1 hqb.2
          ?_ kv hkv
        intro hc
        apply hpt
        have hqe : q = (x, z) := by
          rcases hc with ⟨h1, h2⟩
          rcases q with ⟨a, b⟩
          simp only at h1 h2
          simp [h1, h2]
        rw [← hqe]
        exact hq
    · have hmem' : (x, z) ∈ t := by
        rcases List.mem_cons.mp hmem with he | ht'
        · exact absurd he.symm hp
        · exact ht'
      exact ih (fun q hq => hbound q (List.mem_cons_of_mem p hq)) hndt hmem' _

/-- The sparse storage of a generated chunk holds, at every in-range cell,
exactly the expected cell value of the generation algorithm. -/
theorem generateTerrain_blocksAt (N : NoiseFns) (rng : ℕ → ℕ) (r0 : ℕ) (c : Chunk)
    (x z y : ℕ) (hx : x < 8) (hz : z < 8) (hy : y < 32) :
    (World.generateTerrain N rng r0 c).blocks (Chunk.getIndex x y z) =
      Chunk.storedEntry (World.expectedCellType N rng r0 c.position
        (World.maxTerrainHeight N c.position) x z y) := by
  have hmem : (x, z) ∈ World.colPairs := by
    simp only [World.colPairs, List.mem_flatMap, List.mem_map, List.mem_range]
    exact ⟨x, hx, z, hz, rfl⟩
  exact foldl_applyWrites_set N rng r0 c.position (World.maxTerrainHeight N c.position)
    World.colPairs x z y hy hx hz
    (by decide : ∀ p ∈ World.colPairs, p.1 < 8 ∧ p.2 < 8)
    (by decide : World.colPairs.Nodup) hmem c.blocks

/-- Reading a generated chunk through getBlock returns, at every in-range
cell, a block of exactly the expected type. -/
theorem generateTerrain_getBlockType (N : NoiseFns) (rng : ℕ → ℕ) (r0 : ℕ) (c : Chunk)
    (x z y : ℕ) (hx : x < 8) (hz : z < 8) (hy : y < 32) :
    ((World.generateTerrain N rng r0 c).getBlock x y z).type =
      World.expectedCellType N rng r0 c.position
        (World.maxTerrainHeight N c.position) x z y := by
  have hin : ¬ Chunk.outOfRange (x : Int) (y : Int) (z : Int) := by
    simp only [Chunk.outOfRange, BlockConfig.CHUNK_SIZE, BlockConfig.WORLD_HEIGHT]
    omega
  rw [Chunk.getBlock, if_neg hin, generateTerrain_blocksAt N rng r0 c x z y hx hz hy,
    entryToBlock_storedEntry]

/-- Truncation toward zero agrees with the floor on nonnegative rationals. -/
theorem ratTrunc_eq_floor (q : ℚ) (hq : 0 ≤ q) : ratTrunc q = ⌊q⌋ := by
  unfold ratTrunc
  rw [Rat.floor_def]
  exact Int.tdiv_eq_ediv (Rat.num_nonneg.mpr hq) (by positivity)

/-- When the 2D terrain sample of a column lies in the nominal noise range
[-1, 1], the derived terrain height lies in [3, 28]. -/
theorem heightAt_bounds (N : NoiseFns) (pos : ChunkPos) (x z : ℕ)
    (hn : -1 ≤ N.terrain (World.worldXStart pos + x) (World.worldZStart pos + z) ∧
          N.terrain (World.worldXStart pos + x) (World.worldZStart pos + z) ≤ 1) :
    3 ≤ World.heightAt N pos x z ∧ World.heightAt N pos x z ≤ 28 := by
  unfold World.heightAt
  have hq0 : 0 ≤ (N.terrain (World.worldXStart pos + x) (World.worldZStart pos + z) + 1)
      * (1/2) * 25 := by nlinarith [hn.1]
  have hq25 : (N.terrain (World.worldXStart pos + x) (World.worldZStart pos + z) + 1)
      * (1/2) * 25 ≤ 25 := by nlinarith [hn.2]
  rw [ratTrunc_eq_floor _ hq0]
  have h1 : 0 ≤ ⌊(N.terrain (World.worldXStart pos + x) (World.worldZStart pos + z) + 1)
      * (1/2) * 25⌋ := Int.floor_nonneg.mpr hq0
  have h2 : ⌊(N.terrain (World.worldXStart pos + x) (World.worldZStart pos + z) + 1)
      * (1/2) * 25⌋ ≤ 25 := by
    have := Int.floor_le_floor (α := ℚ) hq25
    simpa using this
  omega

/-- Claim C3: in every chunk produced by the generator, each column (x, z)
with terrain height h derived from the 2D terrain noise (assumed in its
nominal range [-1, 1]) has: stone at y = 0; stone at 0 < y < h - 4 except
cells carved to air where the 3D cave sample at (worldX, y, worldZ) exceeds
the threshold inside the bounded cave band; dirt at h - 4 <= y < h; the
biome surface type at y = h; air at every cell above h except possibly a
single vegetation block at y = h + 1 whose variant is the tree type of the
surface biome. -/
theorem generateTerrain_column_structure (N : NoiseFns) (rng : ℕ → ℕ) (r0 : ℕ) (c : Chunk)
    (hnoise : ∀ a b : Int, -1 ≤ N.terrain a b ∧ N.terrain a b ≤ 1)
    (x z : ℕ) (hx : x < 8) (hz : z < 8) :
    ((World.generateTerrain N rng r0 c).getBlock x 0 z).type = BlockType.PIEDRA ∧
    (∀ y : ℕ, 0 < y → (y : Int) < World.heightAt N c.position x z - 4 →
      ((World.generateTerrain N rng r0 c).getBlock x y z).type =
        (if 2 < (y : Int) ∧ (y : Int) < World.maxTerrainHeight N c.position - 2 ∧
            2/5 < N.caves (World.worldXStart c.position + x) (y : Int)
              (World.worldZStart c.position + z)
         then BlockType.AIRE else BlockType.PIEDRA)) ∧
    (∀ y : ℕ, 0 < y → World.heightAt N c.position x z - 4 ≤ (y : Int) →
      (y : Int) < World.heightAt N c.position x z →
      ((World.generateTerrain N rng r0 c).getBlock x y z).type = BlockType.TIERRA) ∧
    (∀ y : ℕ, (y : Int) = World.heightAt N c.position x z →
      ((World.generateTerrain N rng r0 c).getBlock x y z).type =
        World.getBiomeFromNoise (N.biome (World.worldXStart c.position + x)
          (World.worldZStart c.position + z))) ∧
    (∀ y : ℕ, y < 32 → World.heightAt N c.position x z < (y : Int) →
      (y : Int) ≠ World.heightAt N c.position x z + 1 →
      ((World.generateTerrain N rng r0 c).getBlock x y z).type = BlockType.AIRE) ∧
    (((World.generateTerrain N rng r0 c).getBlock x
        ((World.heightAt N c.position x z + 1).toNat) z).type = BlockType.AIRE ∨
     ((World.generateTerrain N rng r0 c).getBlock x
        ((World.heightAt N c.position x z + 1).toNat) z).type =
       World.treeTypeFor (World.getBiomeFromNoise (N.biome
         (World.worldXStart c.position + x) (World.worldZStart c.position + z)))) := by
  have hh := heightAt_bounds N c.position x z (hnoise _ _)
  refine ⟨?_, ?_, ?_, ?_, ?_, ?_⟩
  · have h0 := generateTerrain_getBlockType N rng r0 c x z 0 hx hz (by omega)
    simp only [Nat.cast_zero] at h0
    rw [h0]
    unfold World.expectedCellType
    rw [if_neg (fun hc => by have h2 := hc.2; omega)]
    unfold World.columnBlockType
    rw [if_pos (by omega : ((0 : ℕ) : Int) = 0)]
  · intro y hy0 hyh
    rw [generateTerrain_getBlockType N rng r0 c x z y hx hz (by omega)]
    unfold World.expectedCellType
    rw [if_neg (fun hc => by have h2 := hc.2; omega)]
    unfold World.columnBlockType
    rw [if_neg (by omega : ¬ ((y : ℕ) : Int) = 0), if_pos hyh]
  · intro y hy0 hyge hylt
    rw [generateTerrain_getBlockType N rng r0 c x z y hx hz (by omega)]
    unfold World.expectedCellType
    rw [if_neg (fun hc => by have h2 := hc.2; omega)]
    unfold World.columnBlockType
    rw [if_neg (by omega : ¬ ((y : ℕ) : Int) = 0),
      if_neg (by omega : ¬ ((y : ℕ) : Int) < World.heightAt N c.position x z - 4),
      if_pos hylt]
  · intro y hyeq
    rw [generateTerrain_getBlockType N rng r0 c x z y hx hz (by omega)]
    unfold World.expectedCellType
    rw [if_neg (fun hc => by have h2 := hc.2; omega)]
    unfold World.columnBlockType
    rw [if_neg (by omega : ¬ ((y : ℕ) : Int) = 0),
      if_neg (by omega : ¬ ((y : ℕ) : Int) < World.heightAt N c.position x z - 4),
      if_neg (by omega : ¬ ((y : ℕ) : Int) < World.heightAt N c.position x z),
      if_pos hyeq]
  · intro y hy32 hygt hyne
    rw [generateTerrain_getBlockType N rng r0 c x z y hx hz hy32]
    unfold World.expectedCellType
    rw [if_neg (fun hc => by have h2 := hc.2; omega)]
    unfold World.columnBlockType
    rw [if_neg (by omega : ¬ ((y : ℕ) : Int) = 0),
      if_neg (by omega : ¬ ((y : ℕ) : Int) < World.heightAt N c.position x z - 4),
      if_neg (by omega : ¬ ((y : ℕ) : Int) < World.heightAt N c.position x z),
      if_neg (by omega : ¬ ((y : ℕ) : Int) = World.heightAt N c.position x z)]
  · rw [generateTerrain_getBlockType N rng r0 c x z
      ((World.heightAt N c.position x z + 1).toNat) hx hz (by omega)]
    unfold World.expectedCellType
    by_cases ht : World.treePlanted rng r0 x z (World.heightAt N c.position x z)
        (World.getBiomeFromNoise (N.biome (World.worldXStart c.position + x)
          (World.worldZStart c.position + z)))
    · rw [if_pos ⟨ht, by omega⟩]
      right
      rfl
    · rw [if_neg (fun hc => ht hc.1)]
      left
      unfold World.columnBlockType
      rw [if_neg (by omega :
            ¬ (((World.heightAt N c.position x z + 1).toNat : ℕ) : Int) = 0),
        if_neg (by omega : ¬ (((World.heightAt N c.position x z + 1).toNat : ℕ) : Int) <
            World.heightAt N c.position x z - 4),
        if_neg (by omega : ¬ (((World.heightAt N c.position x z + 1).toNat : ℕ) : Int) <
            World.heightAt N c.position x z),
        if_neg (by omega : ¬ (((World.heightAt N c.position x z + 1).toNat : ℕ) : Int) =
            World.heightAt N c.position x z)]

/-- Witness for claim C3: the concrete constant noise model satisfies the
nominal range hypothesis, column (0, 0) of a freshly generated chunk is in
range, and its lowest cell is stone. -/
theorem generateTerrain_column_structure_witness :
    (∀ a b : Int, -1 ≤ testNoise.terrain a b ∧ testNoise.terrain a b ≤ 1) ∧ ((0 : ℕ) < 8) ∧
    ((World.generateTerrain testNoise (testMkRng 42) 0 (Chunk.new ⟨0, 0⟩)).getBlock
      (((0 : ℕ)) : Int) 0 (((0 : ℕ)) : Int)).type = BlockType.PIEDRA :=
  ⟨fun a b => ⟨by norm_num [testNoise], by norm_num [testNoise]⟩, by norm_num,
   (generateTerrain_column_structure testNoise (testMkRng 42) 0 (Chunk.new ⟨0, 0⟩)
     (fun a b => ⟨by norm_num [testNoise], by norm_num [testNoise]⟩) 0 0
     (by norm_num) (by norm_num)).1⟩
